import Mathlib

/-!
# Verification of `clippy_lints/src/utils/internal_lints.rs`

A shallow embedding of the internal lints of the repository, together with
proofs of the behavioural properties claimed by the specification.

Conventions used throughout:
* `Span`, `DefId`, `HirId` are modelled as `Nat`.
* Services provided by the host compiler (name resolution, constant
  evaluation, type queries, snippet extraction, macro-expansion data) are
  modelled as explicit context structures of functions ("oracles"); the
  logic of this file is translated from the source, the oracles stand for
  the external collaborators of the spec (section 6).
-/

namespace InternalLints

/-- `List (Option α) → Option (List α)`, the semantics of Rust's
`collect::<Option<Vec<_>>>()`: `some` of all the values when every entry is
`some`, otherwise `none`. -/
def listSequence : List (Option α) → Option (List α)
  | [] => some []
  | none :: _ => none
  | some a :: rest => (listSequence rest).map (a :: ·)

/-- Whether `pre` is a leading segment list of `l`
(Rust's `starts_with` on slices). -/
def listStartsWith [BEq α] : (pre l : List α) → Bool
  | [], _ => true
  | _ :: _, [] => false
  | a :: pre, b :: l => a == b && listStartsWith pre l

/-! ## `ClippyLintsInternal` (lexical ordering of the `utils::paths` module)

Source: `impl EarlyLintPass for ClippyLintsInternal { fn check_crate }`.
An AST item is its name, its span, and — when it is a loaded module —
the list of its sub-items (`sub = none` models every non-module item and
unloaded modules). -/

inductive AItem where
  | mk (name : String) (span : Nat) (sub : Option (List AItem))
deriving Repr, BEq

def AItem.name : AItem → String
  | .mk n _ _ => n

def AItem.span : AItem → Nat
  | .mk _ s _ => s

def AItem.sub : AItem → Option (List AItem)
  | .mk _ _ s => s

/-- Lexicographic strict order on code points; on UTF-8 strings this is
exactly Rust's byte-wise `str` ordering (UTF-8 preserves code point
order). -/
def charListLt : List Char → List Char → Bool
  | [], [] => false
  | [], _ :: _ => true
  | _ :: _, [] => false
  | a :: as, b :: bs =>
    a.toNat < b.toNat || (a.toNat == b.toNat && charListLt as bs)

/-- Rust's `<` on `str`. -/
def strLt (a b : String) : Bool := charListLt a.data b.data

/-- Rust's `str::ends_with` for a string suffix. -/
def strEndsWith (s suffix : String) : Bool :=
  listStartsWith suffix.data.reverse s.data.reverse

/-- The loop over the items of the `paths` module: carrying the previous
item name, report each item whose name is lexically below it
(`*last_name > *name` in the source). -/
def orderFindingsAux : Option String → List AItem → List Nat
  | _, [] => []
  | last?, i :: rest =>
    (match last? with
     | some last => if strLt i.name last then [i.span] else []
     | none => []) ++ orderFindingsAux (some i.name) rest

/-- `ClippyLintsInternal::check_crate`: find the first crate item named
`utils`; when it is a loaded module, find the first sub-item named `paths`;
when that is a loaded module, check its items for lexical ordering.
Returns the spans of the
"this constant should be before the previous constant" reports. -/
def clippyLintsInternalCheckCrate (krate : List AItem) : List Nat :=
  match krate.find? (fun i => i.name == "utils") with
  | some u =>
    match u.sub with
    | some uitems =>
      match uitems.find? (fun i => i.name == "paths") with
      | some p =>
        match p.sub with
        | some pitems => orderFindingsAux none pitems
        | none => []
      | none => []
    | none => []
  | none => []

/-! ## `LintWithoutLintPass` (Registry Cross-Checker)

Declared lints are accumulated into a name-keyed map (`FxHashMap<Symbol,
Span>`), group registrations collect every single-segment path occurring in
the body of the `get_lints` method (`LintCollector`), and the
post-traversal pass reconciles the two. -/

/-- A HIR fragment as seen by `LintCollector`: its `visit_path` observes
every path, `nested_filter::All` walks the whole sub-tree (here flattened
to a binary tree: only the in-order sequence of paths matters to the
collector). -/
inductive VNode where
  | path (segments : List String)
  | seqV (a b : VNode)
  | leafV
deriving Repr

/-- `LintCollector::visit_path`: record the head of every path that has
exactly one segment; the rest of the traversal only concatenates. -/
def collectLints : VNode → List String
  | .path segs => if segs.length = 1 then [segs.headD ""] else []
  | .seqV a b => collectLints a ++ collectLints b
  | .leafV => []

/-- The traversal events relevant to `LintWithoutLintPass::check_item`:
* `lintDecl name span` — a `static` item of lint-ref type whose `desc`
  field is a string literal: the source inserts `(item.ident.name,
  item.span)` into `declared_lints` (line 473); the guard conditions of
  `check_item` are abstracted into this constructor.
* `lintPassImpl body` — an `impl` item produced by `declare_lint_pass!` or
  `impl_lint_pass!`: the source runs `LintCollector` over the body of its
  `get_lints` method.
* `otherItem` — anything else (no state change). -/
inductive LItem where
  | lintDecl (name : String) (span : Nat)
  | lintPassImpl (getLintsBody : VNode)
  | otherItem

structure LWLPState where
  declaredLints : List (String × Nat)
  registeredLints : List String
deriving Repr

/-- Map insert with overwrite (`FxHashMap::insert` keyed by the name). -/
def insertDecl (m : List (String × Nat)) (n : String) (s : Nat) : List (String × Nat) :=
  (n, s) :: m.filter (fun p => p.1 ≠ n)

def lwlpCheckItem (st : LWLPState) : LItem → LWLPState
  | .lintDecl n s => { st with declaredLints := insertDecl st.declaredLints n s }
  | .lintPassImpl body => { st with registeredLints := st.registeredLints ++ collectLints body }
  | .otherItem => st

def lwlpCheckCrate (items : List LItem) : LWLPState :=
  items.foldl lwlpCheckItem ⟨[], []⟩

def lwlpMsg (n : String) : String :=
  "the lint `" ++ n ++ "` is not added to any `LintPass`"

/-- `LintWithoutLintPass::check_crate_post`: unless the lint is allowed at
crate level, report every declared lint that is not in the registered set,
at `lint_span.ctxt().outer_expn_data().call_site` (the `callSite` oracle:
the macro-expansion-resolved call-site span of a span). -/
def lwlpCheckCratePost (allowed : Bool) (callSite : Nat → Nat)
    (st : LWLPState) : List (Nat × String) :=
  if allowed then []
  else
    st.declaredLints.filterMap fun p =>
      if st.registeredLints.contains p.1 then none
      else some (callSite p.2, lwlpMsg p.1)

/-- The union of all per-registration collections, directly from the item
list. -/
def registeredUnion (items : List LItem) : List String :=
  items.flatMap fun i =>
    match i with
    | .lintPassImpl body => collectLints body
    | _ => []

/-! ## `clippy::version` attribute validation

Source: `check_invalid_clippy_version_attribute` and
`extract_clippy_version_value`. `RustcVersion::parse` (crate
`rustc_semver`) is an external collaborator, modelled by the oracle
`parseOk`. -/

/-- An attribute as inspected by `extract_clippy_version_value`: a normal
attribute is its path segments and the result of `attr.value_str()`;
everything else (doc comments, ...) is `otherAttr`. -/
inductive AttrM where
  | normal (pathSegs : List String) (valueStr : Option String)
  | otherAttr
deriving Repr

/-- `extract_clippy_version_value`: the first attribute whose path is
exactly `clippy::version` and that carries a value. Attributes failing any
condition (including a missing value) are skipped (`find_map`). -/
def extractClippyVersionValue (attrs : List AttrM) : Option String :=
  attrs.findSome? fun a =>
    match a with
    | .normal [toolName, attrName] v =>
      if toolName = "clippy" ∧ attrName = "version" then v else none
    | _ => none

inductive VersionFinding where
  | missingAttr
  | invalidAttr
deriving Repr, DecidableEq

/-- `check_invalid_clippy_version_attribute`: no value → "missing";
a value that is neither the literal `pre 1.29.0` nor a parseable
`RustcVersion` → "invalid"; otherwise no finding. The finding carries the
item's span. -/
def checkInvalidClippyVersionAttribute (parseOk : String → Bool)
    (attrs : List AttrM) (span : Nat) : Option (Nat × VersionFinding) :=
  match extractClippyVersionValue attrs with
  | some value =>
    if value = "pre 1.29.0" then none
    else if parseOk value then none
    else some (span, .invalidAttr)
  | none => some (span, .missingAttr)

/-! ## `InterningDefinedSymbol::check_crate` (SymbolConstantIndex)

The index maps the `u32` value of each pre-interned symbol constant to the
`DefId` of the constant. It is represented as an association list whose
head entry shadows later ones (`FxHashMap` insert-overwrite); emptiness is
exactly `List.isEmpty`. -/

/-- A child of a module as seen through `tcx.module_children`: either a
`Res::Def(DefKind::Const, def_id)` or something else. -/
inductive ChildM where
  | constDef (defId : Nat)
  | otherChild
deriving Repr

/-- An interpreter `Allocation`, after resolving every provenance pointer
through `tcx.global_alloc`: each provenance entry is `some a` when the
pointer designates a `GlobalAlloc::Memory(a)` and `none` for any other
`GlobalAlloc` kind; `bytesUtf8` is the result of decoding the whole byte
range (`str::from_utf8(...).ok()`). -/
inductive AllocM where
  | mk (provenance : List (Option AllocM)) (bytesUtf8 : Option String)

def AllocM.provenance : AllocM → List (Option AllocM)
  | .mk p _ => p

def AllocM.bytesUtf8 : AllocM → Option String
  | .mk _ b => b

/-- The result of `tcx.const_eval_poly`, flattened to the shapes the file
inspects: a scalar (with the result of `Scalar::to_u32`, `none` when that
conversion errs), a by-reference allocation with its offset in bytes, or
any other shape. `none` at the call sites below models `Err(_)`. -/
inductive ConstValM where
  | scalar (toU32 : Option Nat)
  | byRef (alloc : AllocM) (offsetBytes : Nat)
  | otherCV

/-- The compiler-provided facts `InterningDefinedSymbol::check_crate`
consults. `kwModule`/`symModule` are
`def_path_res(paths::KW_MODULE/SYM_MODULE).opt_def_id()`. `isSymbolTy d`
is `match_type(cx, tcx.type_of(d), &paths::SYMBOL)`. -/
structure SymCtx where
  kwModule : Option Nat
  symModule : Option Nat
  moduleChildren : Nat → List ChildM
  isSymbolTy : Nat → Bool
  constEvalPoly : Nat → Option ConstValM

/-- The per-child admission step of `check_crate`: a `Const` child whose
type is exactly `Symbol` and whose value evaluates to a scalar convertible
to `u32` is inserted, keyed by that value; everything else is skipped. -/
def idsAdmitChild (ctx : SymCtx) (m : List (Nat × Nat)) : ChildM → List (Nat × Nat)
  | .constDef cdid =>
    if ctx.isSymbolTy cdid then
      match ctx.constEvalPoly cdid with
      | some (.scalar (some v)) => (v, cdid) :: m
      | _ => m
    else m
  | .otherChild => m

/-- `InterningDefinedSymbol::check_crate`: an emptiness guard, then one
pass over the children of the two well-known symbol modules. -/
def idsCheckCrate (ctx : SymCtx) (symbolMap : List (Nat × Nat)) : List (Nat × Nat) :=
  if !symbolMap.isEmpty then symbolMap
  else
    [ctx.kwModule, ctx.symModule].foldl
      (fun m mod? =>
        match mod? with
        | some did => (ctx.moduleChildren did).foldl (idsAdmitChild ctx) m
        | none => m)
      symbolMap

/-! ## `check_path` and `InvalidPaths` (Static Table Validator) -/

/-- The slice of rustc's type structure the file inspects: references
(with mutability, `mutbl = true` meaning `Mutability::Mut`), arrays,
slices, `str`, and everything else. -/
inductive MTy where
  | ref (mutbl : Bool) (t : MTy)
  | array (t : MTy)
  | slice (t : MTy)
  | strTy
  | otherTy
deriving Repr, DecidableEq

/-- The `DefKind`s distinguished by the file. -/
inductive DefKindM where
  | fieldK | structK | variantK | modK | enumK | traitK | otherK
deriving Repr, DecidableEq

/-- The outcome of `def_path_res` as tested by `check_path`: `Res::Err`
or anything else. -/
inductive ResolutionM where
  | resOk
  | resErr
deriving Repr, DecidableEq

/-- The four fixed incoherent-impl tables walked by the fallback:
`[FloatSimplifiedType(F32), FloatSimplifiedType(F64),
SliceSimplifiedType, StrSimplifiedType]`. -/
inductive SimpTyM where
  | f32T | f64T | sliceT | strT
deriving Repr, DecidableEq

/-- The compiler-provided facts `check_path` consults. -/
structure CPCtx where
  defPathRes : List String → ResolutionM
  langItems : List (Option Nat)
  incoherentImpls : SimpTyM → List Nat
  getDefPath : Nat → List String
  defKind : Nat → DefKindM
  moduleChildNames : Nat → List String
  assocItemNames : Nat → List String

/-- The candidate `DefId`s of the fallback search: every defined lang
item, then the impls of the four fixed incoherent primitive types. -/
def cpFallbackIds (ctx : CPCtx) : List Nat :=
  ctx.langItems.filterMap id
    ++ [SimpTyM.f32T, SimpTyM.f64T, SimpTyM.sliceT, SimpTyM.strT].flatMap ctx.incoherentImpls

/-- The per-candidate test of the fallback loop: the candidate's def path
must be a leading segment list of `path` with exactly one segment left
over, and that segment must name a child — a module child for
`Mod`/`Enum`/`Trait` candidates, an associated item otherwise. -/
def cpCandidateHit (ctx : CPCtx) (path : List String) (itemDefId : Nat) : Bool :=
  let lip := ctx.getDefPath itemDefId
  listStartsWith lip path &&
    match path.drop lip.length with
    | [item] =>
      if ctx.defKind itemDefId = .modK ∨ ctx.defKind itemDefId = .enumK
          ∨ ctx.defKind itemDefId = .traitK then
        (ctx.moduleChildNames itemDefId).contains item
      else
        (ctx.assocItemNames itemDefId).contains item
    | _ => false

/-- `check_path`: primary resolution (`def_path_res(path) != Res::Err`),
else the fallback search over lang items and the fixed incoherent-impl
tables. -/
def checkPath (ctx : CPCtx) (path : List String) : Bool :=
  if ctx.defPathRes path ≠ .resErr then true
  else (cpFallbackIds ctx).any (cpCandidateHit ctx path)

/-- The recursively-structured constant values produced by
`constant_simple`, restricted to the shapes `InvalidPaths` inspects. -/
inductive ConstantM where
  | strC (s : String)
  | vecC (elems : List ConstantM)
  | otherC
deriving Repr

def ConstantM.asStr : ConstantM → Option String
  | .strC s => some s
  | _ => none

/-- An item as seen by `InvalidPaths::check_item`: the name of its parent
module, and — when it is a `const` item — its declared type, the
`constant_simple` evaluation of its body, and its span. -/
inductive IPItem where
  | constItem (parentModName : String) (declTy : MTy) (bodyVal : Option ConstantM)
      (span : Nat)
  | otherIPItem (parentModName : String)
deriving Repr

/-- The declared-type test of `InvalidPaths::check_item`:
`ty::Array(el_ty, _)` of `ty::Ref(_, el_ty, _)` (either mutability) with
`el_ty.is_str()`. -/
def ipDeclTyOk : MTy → Bool
  | .array (.ref _ t) => t = .strTy
  | _ => false

/-- The body-evaluation step of `InvalidPaths::check_item`:
`constant_simple` must yield a `Constant::Vec`, whose elements are read as
strings. An element that is not a `Str` is `unreachable!()` in the source
(excluded by the declared-type check); it is modelled as extraction
failure. -/
def ipPathOf : Option ConstantM → Option (List String)
  | some (.vecC elems) => listSequence (elems.map ConstantM.asStr)
  | _ => none

/-- `InvalidPaths::check_item`: fires on `const` items of declared type
array-of-`&str` in a module named `paths` whose body evaluates to a
literal list of strings, when `check_path` rejects the segment list. -/
def invalidPathsCheckItem (ctx : CPCtx) (item : IPItem) : Option (Nat × String) :=
  match item with
  | .constItem parentModName declTy bodyVal span =>
    if parentModName = "paths" ∧ ipDeclTyOk declTy then
      match ipPathOf bodyVal with
      | some path =>
        if !checkPath ctx path then some (span, "invalid path") else none
      | none => none
    else none
  | .otherIPItem _ => none

/-! ## `UnnecessaryDefPath` (Canonical-Path Suggestion Engine)

`path_to_matched_type`, `read_mir_alloc_def_path`, and the body of
`UnnecessaryDefPath::check_expr`. -/

/-- `read_mir_alloc_def_path`: when the type is an immutable reference,
follow the first provenance pointer (it must be a memory allocation);
then, when the type is an array or slice of immutable `&str`, decode every
provenance entry of the allocation as UTF-8 (failing when any entry is not
a memory allocation or not valid UTF-8); in every other case, `none`. -/
def readMirAllocDefPath (alloc : AllocM) (ty : MTy) : Option (List String) :=
  match
    (match ty with
     | .ref false t =>
       match alloc.provenance.head? with
       | some (some a) => some (a, t)
       | some none => none
       | none => none
     | _ => some (alloc, ty))
  with
  | none => none
  | some (alloc, ty) =>
    match ty with
    | .array t | .slice t =>
      match t with
      | .ref false elTy =>
        if elTy = .strTy then
          listSequence (alloc.provenance.map (fun g => g.bind AllocM.bytesUtf8))
        else none
      | _ => none
    | _ => none

/-- The resolution (`cx.qpath_res`) of a path expression, restricted to
the cases `path_to_matched_type` distinguishes: a local binding, a static
(`DefKind::Static(_)` of either mutability), a constant, or anything
else. -/
inductive PRes where
  | localRes (hirId : Nat)
  | staticRes (defId : Nat)
  | constRes (defId : Nat)
  | otherRes
deriving Repr

/-- A HIR expression as inspected by `path_to_matched_type`: a path
(carrying its resolution), an array expression, a literal (`str? = some s`
exactly for string literals), a borrow, or anything else. -/
inductive PExpr where
  | qpath (r : PRes)
  | arrayLit (elems : List PExpr)
  | litE (str? : Option String)
  | addrOf (e : PExpr)
  | otherPE
deriving Repr

/-- `peel_hir_expr_refs`: strip every leading borrow. -/
def peelHirExprRefs : PExpr → PExpr
  | .addrOf e => peelHirExprRefs e
  | e => e

/-- The per-element extraction of the array case of
`path_to_matched_type`: a string literal yields its string, anything else
fails. -/
def litStrOf : PExpr → Option String
  | .litE (some s) => some s
  | _ => none

/-- The compiler-provided facts `UnnecessaryDefPath::check_expr` and
`path_to_matched_type` consult.
* `localInit h` — the initializer when the parent node of local `h` is a
  `Local` with `init: Some(..)` (`None` otherwise);
* `evalStaticInit` — `tcx.eval_static_initializer(..).ok()`;
* `typeOfDef` — `tcx.type_of`;
* `constEvalPoly` — `tcx.const_eval_poly(..).ok()`;
* `defPathResId` — `def_path_res(cx, segments).opt_def_id()`;
* `fieldInherentFn d m` — for a `Field` def `d`, the inherent associated
  function named `m` found through `def_key(d).parent` and
  `inherent_impls` (lines 929-941), flattened to one oracle;
* `diagName` — `tcx.diagnostic_items(..).id_to_name.get`;
* `langItems` — `tcx.lang_items().items()`, and `langVariantName i` the
  name of the `i`-th variant of the `LangItem` enum;
* `ctorAllPub d` — for a struct def `d`:
  `non_enum_variant().ctor_def_id.is_some()` and all fields public;
* `variantCtorAllPub d` — the same for a variant def `d`, its variant
  found through `adt_def(parent(d)).variant_with_id(d)`. -/
structure UddCtx where
  localInit : Nat → Option PExpr
  evalStaticInit : Nat → Option AllocM
  typeOfDef : Nat → MTy
  constEvalPoly : Nat → Option ConstValM
  defPathResId : List String → Option Nat
  defKind : Nat → DefKindM
  fieldInherentFn : Nat → String → Option Nat
  diagName : Nat → Option String
  langItems : List (Option Nat)
  langVariantName : Nat → String
  ctorAllPub : Nat → Bool
  variantCtorAllPub : Nat → Bool

/-- `path_to_matched_type`. The source recursion on a local's initializer
has no structural bound (the HIR parent chain is finite); `fuel` bounds
that recursion in this embedding and only the local case consumes it. -/
def pathToMatchedType (ctx : UddCtx) (fuel : Nat) (expr : PExpr) : Option (List String) :=
  match peelHirExprRefs expr with
  | .qpath r =>
    match r with
    | .localRes hirId =>
      match ctx.localInit hirId with
      | some initE =>
        match fuel with
        | 0 => none
        | f + 1 => pathToMatchedType ctx f initE
      | none => none
    | .staticRes did =>
      match ctx.evalStaticInit did with
      | some alloc => readMirAllocDefPath alloc (ctx.typeOfDef did)
      | none => none
    | .constRes did =>
      match ctx.constEvalPoly did with
      | some (.byRef alloc offset) =>
        if offset = 0 then readMirAllocDefPath alloc (ctx.typeOfDef did) else none
      | _ => none
    | .otherRes => none
  | .arrayLit elems => listSequence (elems.map litStrOf)
  | _ => none

/-- The `PATHS` table of `UnnecessaryDefPath::check_expr`. -/
def uddPaths : List (List String) :=
  [["clippy_utils", "match_def_path"],
   ["clippy_utils", "match_trait_method"],
   ["clippy_utils", "ty", "match_type"],
   ["clippy_utils", "is_expr_path_def_path"]]

/-- `Iterator::position`, for the def-path table. -/
def listPosition (p : List String) : List (List String) → Option Nat
  | [] => none
  | q :: rest => if q == p then some 0 else (listPosition p rest).map (· + 1)

/-- `match_any_def_paths(cx, id, PATHS)`: the position of the first entry
of `PATHS` equal to the def path of `id`. -/
def matchAnyDefPaths (calleeDefPath : List String) : Option Nat :=
  listPosition calleeDefPath uddPaths

/-- `let item_arg = if which_path == 4 { &args[1] } else { &args[0] }`:
the position (within `args @ ..`) the would-be-path argument is taken
from. -/
def uddItemArgIdx (whichPath : Nat) : Nat :=
  if whichPath = 4 then 1 else 0

/-- The classification of the resolved target (`enum Item` in the
source). -/
inductive UddItem where
  | langItem (name : String)
  | diagnosticItem (name : String)
deriving Repr, DecidableEq

/-- Lines 947-963: a diagnostic item wins over a `LangItem`; the
`LangItem` name is the name of the variant at the position of the def id
in `lang_items().items()`; neither → the check returns without a
finding. -/
def uddClassify (ctx : UddCtx) (defId : Nat) : Option UddItem :=
  match ctx.diagName defId with
  | some n => some (.diagnosticItem n)
  | none =>
    match ctx.langItems.findIdx? (· == some defId) with
    | some idx => some (.langItem (ctx.langVariantName idx))
    | none => none

def uddMsg : UddItem → String
  | .diagnosticItem _ => "use of a def path to a diagnostic item"
  | .langItem _ => "use of a def path to a `LangItem`"

/-- Lines 965-975: whether the resolved entity is a struct or variant
with a constructor and all-public fields. -/
def uddHasCtor (ctx : UddCtx) (defId : Nat) : Bool :=
  match ctx.defKind defId with
  | .structK => ctx.ctorAllPub defId
  | .variantK => ctx.variantCtorAllPub defId
  | _ => false

/-- Lines 925-944: `def_path_res` matches field names before inherent
functions, so a `Field` resolution is re-targeted at the inherent
associated function of the parent type with the path's last segment as
name, keeping the field when none is found. -/
def uddAdjustFieldDefId (ctx : UddCtx) (defId : Nat) (methodName : String) : Nat :=
  if ctx.defKind defId = .fieldK then (ctx.fieldInherentFn defId methodName).getD defId
  else defId

/-- The `(sugg, with_note)` table of lines 980-1019: one case per
recognized call shape × entity kind, with the constructor tie-breaks; the
uncovered combinations (`match_trait_method` × `LangItem`, any index
outside the table) make the check return without a finding. -/
def uddSuggestion (whichPath : Nat) (item : UddItem) (hasCtor : Bool)
    (cxSnip defSnip : String) : Option (String × Bool) :=
  match whichPath, item with
  | 0, .diagnosticItem i =>
    some (cxSnip ++ ".tcx.is_diagnostic_item(sym::" ++ i ++ ", " ++ defSnip ++ ")",
      hasCtor)
  | 0, .langItem i =>
    some (cxSnip ++ ".tcx.lang_items().require(LangItem::" ++ i ++ ").ok() == Some("
        ++ defSnip ++ ")",
      hasCtor)
  | 1, .diagnosticItem i =>
    some ("is_trait_method(" ++ cxSnip ++ ", " ++ defSnip ++ ", sym::" ++ i ++ ")", false)
  | 2, .diagnosticItem i =>
    some ("is_type_diagnostic_item(" ++ cxSnip ++ ", " ++ defSnip ++ ", sym::" ++ i ++ ")",
      false)
  | 2, .langItem i =>
    some ("is_type_lang_item(" ++ cxSnip ++ ", " ++ defSnip ++ ", LangItem::" ++ i ++ ")",
      false)
  | 3, .diagnosticItem i =>
    if hasCtor then
      some ("is_res_diag_ctor(" ++ cxSnip ++ ", path_res(" ++ cxSnip ++ ", " ++ defSnip
          ++ "), sym::" ++ i ++ ")",
        false)
    else
      some ("is_path_diagnostic_item(" ++ cxSnip ++ ", " ++ defSnip ++ ", sym::" ++ i
          ++ ")",
        false)
  | 3, .langItem i =>
    if hasCtor then
      some ("is_res_lang_ctor(" ++ cxSnip ++ ", path_res(" ++ cxSnip ++ ", " ++ defSnip
          ++ "), LangItem::" ++ i ++ ")",
        false)
    else
      some ("path_res(" ++ cxSnip ++ ", " ++ defSnip
          ++ ").opt_def_id().map_or(false, |id| " ++ cxSnip
          ++ ".tcx.lang_items().require(LangItem::" ++ i ++ ").ok() == Some(id))",
        false)
  | _, _ => none

/-- A call expression after the destructuring
`ExprKind::Call(func, [cx_arg, def_arg, args @ ..])`:
`calleeRes` is the resolved def path of `func` when `func` is a path
expression with a def id (`none` otherwise); `cxSnip`/`defSnip` are the
snippets of the first two arguments; `pathArgs` is `args @ ..`. -/
structure UddCall where
  calleeRes : Option (List String)
  cxSnip : String
  defSnip : String
  pathArgs : List PExpr
  span : Nat

/-- The diagnostic of `UnnecessaryDefPath::check_expr`:
a `span_lint_and_then` with a `span_suggestion` at the call's span, and —
when `with_note` — the help note about using the parent `DefId`. -/
structure UddFinding where
  span : Nat
  msg : String
  sugg : String
  note : Bool
deriving Repr, DecidableEq

/-- The body of `UnnecessaryDefPath::check_expr`, with the source's bail
points (`if_chain` conditions and early `return`s) expressed as `none`.
The source indexes `args[0]`/`args[1]` directly; an absent index is
modelled as `none`. -/
def uddCheckExpr (ctx : UddCtx) (fuel : Nat) (allowed : Bool) (call : UddCall) :
    Option UddFinding :=
  if allowed then none
  else
    match call.calleeRes with
    | none => none
    | some calleePath =>
      match matchAnyDefPaths calleePath with
      | none => none
      | some whichPath =>
        match call.pathArgs[uddItemArgIdx whichPath]? with
        | none => none
        | some itemArg =>
          match pathToMatchedType ctx fuel itemArg with
          | none => none
          | some segments =>
            match ctx.defPathResId segments with
            | none => none
            | some defId0 =>
              let defId := uddAdjustFieldDefId ctx defId0 (segments.getLastD "")
              match uddClassify ctx defId with
              | none => none
              | some item =>
                match uddSuggestion whichPath item (uddHasCtor ctx defId)
                    call.cxSnip call.defSnip with
                | none => none
                | some (sugg, withNote) =>
                  some ⟨call.span, uddMsg item, sugg, withNote⟩

/-! ## `CollapsibleCalls` (collapsible wrapped-diagnostic calls) -/

/-- An expression as inspected by `CollapsibleCalls::check_expr` and by
the side-effect-sensitive structural equality. `call` carries the resolved
def path of its callee when the callee is a path expression (`none`
otherwise). A block carries at most one statement (`peel_blocks_with_stmt`
stops at larger blocks, which are covered by `otherC`). -/
inductive CExpr where
  | cpath (segs : List String)
  | clit (s : String)
  | call (calleeRes : Option (List String)) (args : List CExpr)
  | methodCall (name : String) (recv : CExpr) (args : List CExpr)
  | closure (body : CExpr)
  | cblock (stmt : Option CExpr) (tail : Option CExpr)
  | binary (op : String) (l r : CExpr)
  | assign (l r : CExpr)
  | fieldAcc (e : CExpr) (fname : String)
  | otherC
deriving Repr

/-- Modelled from the spec: `peel_blocks_with_stmt` lives in
`clippy_utils`, outside this source file. Per the spec (section 4.5), the
closure body is unwrapped "after unwrapping a single trailing statement":
blocks whose content is a single trailing expression or a single statement
are peeled repeatedly. -/
def peelBlocksWithStmt : CExpr → CExpr
  | .cblock none (some e) => peelBlocksWithStmt e
  | .cblock (some s) none => peelBlocksWithStmt s
  | e => e

/-- Modelled from the spec: `SpanlessEq::new(cx).deny_side_effects()` and
its `eq_expr` live in `clippy_utils::hir_utils`, outside this source file.
Per the spec (sections 4.5 and 9): a recursive structural equality over
the expression-shape enumeration that refuses to equate any two
sub-expressions when either could perform an observable effect (a call, a
method call, an assignment); unmodelled shapes are conservatively
refused. -/
def spanlessEqDenySideEffects : CExpr → CExpr → Bool
  | .cpath a, .cpath b => a == b
  | .clit a, .clit b => a == b
  | .fieldAcc e1 n1, .fieldAcc e2 n2 => n1 == n2 && spanlessEqDenySideEffects e1 e2
  | .binary o1 l1 r1, .binary o2 l2 r2 =>
    o1 == o2 && spanlessEqDenySideEffects l1 l2 && spanlessEqDenySideEffects r1 r2
  | _, _ => false

def isPathExprC : CExpr → Bool
  | .cpath _ => true
  | _ => false

/-- The collapse target: `span_lint_and_sugg`, or `span_lint_and_help` /
`span_lint_and_note` with `Some(span)` (`withSpan = true`) or `None`. -/
inductive CollapseKind where
  | toSugg
  | toHelp (withSpan : Bool)
  | toNote (withSpan : Bool)
deriving Repr, DecidableEq

/-- The body of `CollapsibleCalls::check_expr`: a call to
`clippy_utils::diagnostics::span_lint_and_then` with five arguments whose
fifth is a closure; the peeled closure body must be a single method call
on a path receiver; `span_suggestion`/`span_help`/`span_note` additionally
require the method call's first argument to be structurally equal (side
effects refused) to the third `span_lint_and_then` argument, while
`help`/`note` do not. The source indexes the argument lists directly
(their arities are fixed by the matched callees); absent indices are
modelled by `otherC` defaults. -/
def collapsibleCheckExpr (allowed : Bool) (expr : CExpr) : Option CollapseKind :=
  if allowed then none
  else
    match expr with
    | .call (some fpath) args =>
      if fpath = ["clippy_utils", "diagnostics", "span_lint_and_then"]
          ∧ args.length = 5 then
        match args[4]? with
        | some (CExpr.closure body) =>
          match peelBlocksWithStmt body with
          | .methodCall name recv callArgs =>
            if isPathExprC recv then
              if name = "span_suggestion" then
                if spanlessEqDenySideEffects (args.getD 2 .otherC) (callArgs.getD 0 .otherC)
                then some .toSugg else none
              else if name = "span_help" then
                if spanlessEqDenySideEffects (args.getD 2 .otherC) (callArgs.getD 0 .otherC)
                then some (.toHelp true) else none
              else if name = "span_note" then
                if spanlessEqDenySideEffects (args.getD 2 .otherC) (callArgs.getD 0 .otherC)
                then some (.toNote true) else none
              else if name = "help" then some (.toHelp false)
              else if name = "note" then some (.toNote false)
              else none
            else none
          | _ => none
        | _ => none
      else none
    | _ => none

/-! ## `InterningDefinedSymbol::check_expr` (binary comparisons) and
`symbol_str_expr` -/

/-- `FxHashMap::get` on the association-list representation of
`symbol_map`. -/
def mapLookup (m : List (Nat × Nat)) (k : Nat) : Option Nat :=
  (m.find? (fun p => p.1 == k)).map (fun p => p.2)

/-- The receiver types `symbol_str_expr` distinguishes
(`match_type(.., &paths::SYMBOL)` / `&paths::IDENT`). -/
inductive STy where
  | symbolTy | identTy | otherSTy
deriving Repr, DecidableEq

/-- The sub-expression `symbol_str_expr` examines as a conversion call:
a zero-or-more-argument method call — `resolvedPath` being the def path
of `type_dependent_def_id` when resolved, `noArgs` whether the argument
list is `[]`, `recvTy` the receiver type, `recvSnip` the snippet of the
receiver at its `source_callsite` — or any non-method-call shape. -/
inductive SCall where
  | mcall (resolvedPath : Option (List String)) (noArgs : Bool) (recvTy : STy)
      (recvSnip : String)
  | notMCall
deriving Repr

/-- An operand expression of the binary comparison: either literally of
the shape `&*e` (the `AddrOf`/`Deref` unwrap of `symbol_str_expr`, with
`e` the call candidate) or not; `constStr` is `constant_simple` on the
whole operand when it yields `Constant::Str`. -/
inductive SExprK where
  | addrDeref (callE : SCall) (constStr : Option String)
  | direct (callE : SCall) (constStr : Option String)
deriving Repr

def SExprK.callOf : SExprK → SCall
  | .addrDeref c _ => c
  | .direct c _ => c

def SExprK.constOf : SExprK → Option String
  | .addrDeref _ s => s
  | .direct _ s => s

/-- Modelled from the spec: the def paths `IDENT_AS_STR`,
`SYMBOL_AS_STR`, `SYMBOL_TO_IDENT_STRING` and `TO_STRING_METHOD` live in
`clippy_utils::paths`, outside this source file; their values are the
well-known paths of the items they name. -/
def identAsStrPath : List String := ["rustc_span", "symbol", "Ident", "as_str"]

def symbolAsStrPath : List String := ["rustc_span", "symbol", "Symbol", "as_str"]

def symbolToIdentStringPath : List String :=
  ["rustc_span", "symbol", "Symbol", "to_ident_string"]

def toStringMethodPath : List String := ["alloc", "string", "ToString", "to_string"]

/-- `IDENT_STR_PATHS`. -/
def identStrPaths : List (List String) := [identAsStrPath, toStringMethodPath]

/-- `SYMBOL_STR_PATHS`. -/
def symbolStrPaths : List (List String) :=
  [symbolAsStrPath, symbolToIdentStringPath, toStringMethodPath]

/-- `enum SymbolStrExpr`: a string constant with a matching pre-interned
symbol constant, or a symbol/identifier-to-string conversion call. -/
inductive SymbolStrExpr where
  | constSym (defId : Nat)
  | exprSym (itemSnip : String) (isIdent : Bool) (isToOwned : Bool)
deriving Repr, DecidableEq

/-- `InterningDefinedSymbol::symbol_str_expr`: first try to read the
operand as a no-argument conversion method call on a `Symbol` or `Ident`
receiver whose resolved method is one of the recognized conversion paths
(`is_to_owned` exactly when the matched path's last segment ends in
`string`); otherwise try to read it as a constant string whose interned
value is in `symbol_map`. -/
def symbolStrExpr (symbolMap : List (Nat × Nat)) (intern : String → Nat)
    (e : SExprK) : Option SymbolStrExpr :=
  let methodRes : Option SymbolStrExpr :=
    match e.callOf with
    | .mcall (some did) true recvTy snip =>
      match
        (match recvTy with
         | .symbolTy => some false
         | .identTy => some true
         | .otherSTy => none)
      with
      | some isIdent =>
        let pathList := if isIdent then identStrPaths else symbolStrPaths
        match pathList.find? (fun p => p == did) with
        | some p => some (.exprSym snip isIdent (strEndsWith (p.getLastD "") "string"))
        | none => none
      | none => none
    | _ => none
  match methodRes with
  | some r => some r
  | none =>
    match e.constOf with
    | some s =>
      match mapLookup symbolMap (intern s) with
      | some defId => some (.constSym defId)
      | none => none
    | none => none

/-- `SymbolStrExpr::as_symbol_snippet`: the constant's rendered def path,
or the receiver snippet with `.name` appended when the handle was an
`Ident`. -/
def asSymbolSnippet (defPathStr : Nat → String) : SymbolStrExpr → String
  | .constSym d => defPathStr d
  | .exprSym snip isIdent _ => if isIdent then snip ++ ".name" else snip

/-- `matches!(symbol, SymbolStrExpr::Expr { is_to_owned: true, .. })`. -/
def SymbolStrExpr.isOwnedAlloc : SymbolStrExpr → Bool
  | .exprSym _ _ o => o
  | .constSym _ => false

inductive BinOpM where
  | eqOp | neOp | otherOp
deriving Repr, DecidableEq

/-- `BinOpKind::as_str` for the two operators the check fires on. -/
def BinOpM.asStr : BinOpM → String
  | .eqOp => "=="
  | .neOp => "!="
  | .otherOp => ""

structure SymFinding where
  span : Nat
  msg : String
  sugg : String
deriving Repr, DecidableEq

/-- The `ExprKind::Binary` part of `InterningDefinedSymbol::check_expr`
(lines 1246-1289): for `==`/`!=`, classify both operands with
`symbol_str_expr`; both classified → one UNNECESSARY_SYMBOL_STR conversion
finding at the whole expression; exactly one classified and an owned
allocation → one UNNECESSARY_SYMBOL_STR allocation finding at that
operand; otherwise nothing. -/
def interningBinaryCheck (symbolMap : List (Nat × Nat)) (intern : String → Nat)
    (defPathStr : Nat → String) (op : BinOpM) (left right : SExprK)
    (leftSpan rightSpan exprSpan : Nat) : List SymFinding :=
  if op = .eqOp ∨ op = .neOp then
    match symbolStrExpr symbolMap intern left, symbolStrExpr symbolMap intern right with
    | some l, some r =>
      [⟨exprSpan, "unnecessary `Symbol` to string conversion",
        asSymbolSnippet defPathStr l ++ " " ++ op.asStr ++ " "
          ++ asSymbolSnippet defPathStr r⟩]
    | some s1, none =>
      if s1.isOwnedAlloc then
        [⟨leftSpan, "unnecessary string allocation",
          asSymbolSnippet defPathStr s1 ++ ".as_str()"⟩]
      else []
    | none, some s1 =>
      if s1.isOwnedAlloc then
        [⟨rightSpan, "unnecessary string allocation",
          asSymbolSnippet defPathStr s1 ++ ".as_str()"⟩]
      else []
    | none, none => []
  else []

/-! ## Claim-side readings and concrete instances

The definitions below are not translations of the source: the first
follows the specification's words (for comparison against the source
functions above), the rest are concrete instances used to exercise the
source translations. -/

/-- A literal string-array expression: an array expression whose elements
are all string literals. -/
def isLitStrArray : PExpr → Bool
  | .arrayLit elems => elems.all (fun e => (litStrOf e).isSome)
  | _ => false

/-- The specification's reading of the extraction domain, verbatim: "a
literal string-array expression, a local variable bound to one through one
level of indirection, or a static/constant whose evaluated initializer
decodes to a string array". -/
def claimedExtractionShapes (ctx : UddCtx) (e : PExpr) : Bool :=
  isLitStrArray (peelHirExprRefs e) ||
  (match peelHirExprRefs e with
   | .qpath (.localRes hirId) =>
     (match ctx.localInit hirId with
      | some initE => isLitStrArray (peelHirExprRefs initE)
      | none => false)
   | .qpath (.staticRes did) =>
     (match ctx.evalStaticInit did with
      | some alloc => (readMirAllocDefPath alloc (ctx.typeOfDef did)).isSome
      | none => false)
   | .qpath (.constRes did) =>
     (match ctx.constEvalPoly did with
      | some (.byRef alloc off) =>
        off == 0 && (readMirAllocDefPath alloc (ctx.typeOfDef did)).isSome
      | _ => false)
   | _ => false)

/-- A context in which local `0` is bound to local `1`, which is bound to
a literal string array: a two-level local indirection chain. -/
def uddLocalChainCtx : UddCtx where
  localInit h :=
    if h = 0 then some (.qpath (.localRes 1))
    else if h = 1 then some (.arrayLit [.litE (some "a")]) else none
  evalStaticInit _ := none
  typeOfDef _ := .otherTy
  constEvalPoly _ := none
  defPathResId _ := none
  defKind _ := .otherK
  fieldInherentFn _ _ := none
  diagName _ := none
  langItems := []
  langVariantName _ := ""
  ctorAllPub _ := false
  variantCtorAllPub _ := false

/-- A context in which the path `alloc::vec::Vec` resolves to def id `10`,
a struct that is the diagnostic item `Vec`. -/
def uddDemoCtx : UddCtx where
  localInit _ := none
  evalStaticInit _ := none
  typeOfDef _ := .otherTy
  constEvalPoly _ := none
  defPathResId segs := if segs = ["alloc", "vec", "Vec"] then some 10 else none
  defKind d := if d = 10 then .structK else .otherK
  fieldInherentFn _ _ := none
  diagName d := if d = 10 then some "Vec" else none
  langItems := []
  langVariantName _ := ""
  ctorAllPub _ := false
  variantCtorAllPub _ := false

/-- A `match_type(cx, ty, &["alloc", "vec", "Vec"])` call. -/
def uddDemoCall : UddCall where
  calleeRes := some ["clippy_utils", "ty", "match_type"]
  cxSnip := "cx"
  defSnip := "ty"
  pathArgs := [.arrayLit [.litE (some "alloc"), .litE (some "vec"), .litE (some "Vec")]]
  span := 0

/-- A resolution context in which nothing resolves: primary resolution
always errs and there are no fallback candidates. -/
def cpDemoCtx : CPCtx where
  defPathRes _ := .resErr
  langItems := []
  incoherentImpls _ := []
  getDefPath _ := []
  defKind _ := .otherK
  moduleChildNames _ := []
  assocItemNames _ := []

/-- A symbol-module layout with one admissible constant: def id `7` of
type `Symbol`, evaluating to the scalar `42`. -/
def symDemoCtx : SymCtx where
  kwModule := none
  symModule := some 1
  moduleChildren d := if d = 1 then [.constDef 7] else []
  isSymbolTy d := d = 7
  constEvalPoly d := if d = 7 then some (.scalar (some 42)) else none

/-! ## Helper lemmas -/

theorem listSequence_eq_some_iff {l : List (Option α)} {r : List α} :
    listSequence l = some r ↔ l = r.map some := by
  induction l generalizing r with
  | nil => cases r <;> simp [listSequence]
  | cons o rest ih =>
    cases o with
    | none => cases r <;> simp [listSequence]
    | some a =>
      cases r with
      | nil =>
        simp only [listSequence, List.map_nil, Option.map_eq_some']
        constructor
        · rintro ⟨l, -, h⟩; cases h
        · rintro ⟨⟩
      | cons b rb =>
        simp only [listSequence, Option.map_eq_some', List.map_cons, List.cons.injEq,
          Option.some.injEq]
        constructor
        · rintro ⟨l, hl, hab, hlrb⟩
          exact ⟨hab, ih.1 (by rw [← hlrb]; exact hl)⟩
        · rintro ⟨hab, hrest⟩
          exact ⟨rb, ih.2 hrest, hab, rfl⟩

theorem orderFindingsAux_some (a : AItem) (l : List AItem) :
    orderFindingsAux (some a.name) l =
      ((a :: l).zip l).filterMap
        (fun q => if strLt q.2.name q.1.name then some q.2.span else none) := by
  induction l generalizing a with
  | nil => simp [orderFindingsAux]
  | cons b rest ih =>
    simp only [orderFindingsAux, List.zip_cons_cons, List.filterMap_cons]
    by_cases h : strLt b.name a.name
    · simp [h, ih b]
    · simp [h, ih b]

theorem orderFindingsAux_none (l : List AItem) :
    orderFindingsAux none l =
      (l.zip (l.drop 1)).filterMap
        (fun q => if strLt q.2.name q.1.name then some q.2.span else none) := by
  cases l with
  | nil => simp [orderFindingsAux]
  | cons a rest => simpa [orderFindingsAux] using orderFindingsAux_some a rest

theorem lwlpCheckCrate_registered_aux (items : List LItem) (st : LWLPState) :
    (items.foldl lwlpCheckItem st).registeredLints
      = st.registeredLints ++ registeredUnion items := by
  induction items generalizing st with
  | nil => simp [registeredUnion]
  | cons i rest ih =>
    cases i with
    | lintDecl n s => simp [lwlpCheckItem, registeredUnion, ih, List.flatMap_cons]
    | lintPassImpl body =>
      simp [lwlpCheckItem, registeredUnion, ih, List.flatMap_cons, List.append_assoc]
    | otherItem => simp [lwlpCheckItem, registeredUnion, ih, List.flatMap_cons]

theorem lwlpCheckCrate_registered (items : List LItem) :
    (lwlpCheckCrate items).registeredLints = registeredUnion items := by
  simpa [lwlpCheckCrate] using lwlpCheckCrate_registered_aux items ⟨[], []⟩

theorem lwlpCheckCrate_declared_aux (items : List LItem) (st : LWLPState) (n : String)
    (sp : Nat) :
    (n, sp) ∈ (items.foldl lwlpCheckItem st).declaredLints →
      (n, sp) ∈ st.declaredLints ∨ .lintDecl n sp ∈ items := by
  induction items generalizing st with
  | nil => simp
  | cons i rest ih =>
    intro h
    cases i with
    | lintDecl n' sp' =>
      rcases ih _ h with h' | h'
      · simp only [lwlpCheckItem, insertDecl, List.mem_cons, List.mem_filter] at h'
        rcases h' with h' | h'
        · right
          simp only [Prod.mk.injEq] at h'
          simp [h'.1, h'.2]
        · left; exact h'.1
      · right; simp [h']
    | lintPassImpl body =>
      rcases ih _ h with h' | h'
      · left; exact h'
      · right; simp [h']
    | otherItem =>
      rcases ih _ h with h' | h'
      · left; exact h'
      · right; simp [h']

theorem listPosition_mem {p : List String} {l : List (List String)} {w : Nat}
    (h : listPosition p l = some w) : w < l.length ∧ p ∈ l := by
  induction l generalizing w with
  | nil => simp [listPosition] at h
  | cons q rest ih =>
    simp only [listPosition] at h
    by_cases hq : q == p
    · rw [if_pos hq] at h
      cases h
      exact ⟨by simp, by simp [eq_of_beq hq]⟩
    · rw [if_neg hq] at h
      cases hr : listPosition p rest with
      | none => rw [hr] at h; cases h
      | some w' =>
        rw [hr] at h
        cases h
        obtain ⟨h1, h2⟩ := ih hr
        exact ⟨by simpa using h1, by simp [h2]⟩

theorem idsAdmitChild_fold_mem (ctx : SymCtx) (cs : List ChildM)
    (m : List (Nat × Nat)) (v d : Nat)
    (h : (v, d) ∈ cs.foldl (idsAdmitChild ctx) m) :
    (v, d) ∈ m ∨ (ChildM.constDef d ∈ cs ∧ ctx.isSymbolTy d = true
      ∧ ctx.constEvalPoly d = some (.scalar (some v))) := by
  induction cs generalizing m with
  | nil => exact Or.inl h
  | cons c rest ih =>
    rcases ih _ h with h' | h'
    · cases c with
      | otherChild => exact Or.inl h'
      | constDef cdid =>
        simp only [idsAdmitChild] at h'
        by_cases hs : ctx.isSymbolTy cdid
        · rw [if_pos hs] at h'
          cases hcv : ctx.constEvalPoly cdid with
          | none => rw [hcv] at h'; exact Or.inl h'
          | some cv =>
            rw [hcv] at h'
            cases cv with
            | byRef a o => exact Or.inl h'
            | otherCV => exact Or.inl h'
            | scalar u =>
              cases u with
              | none => exact Or.inl h'
              | some v' =>
                rcases List.mem_cons.mp h' with h'' | h''
                · rw [Prod.mk.injEq] at h''
                  obtain ⟨hv, hd⟩ := h''
                  subst hd
                  subst hv
                  exact Or.inr ⟨by simp, hs, hcv⟩
                · exact Or.inl h''
        · rw [if_neg hs] at h'
          exact Or.inl h'
    · exact Or.inr ⟨List.mem_cons_of_mem _ h'.1, h'.2⟩

theorem listSequence_asStr {elems : List ConstantM} {path : List String} :
    listSequence (elems.map ConstantM.asStr) = some path
      ↔ elems = path.map ConstantM.strC := by
  rw [listSequence_eq_some_iff]
  induction elems generalizing path with
  | nil => cases path <;> simp
  | cons e rest ih =>
    cases path with
    | nil => simp
    | cons s srest =>
      simp only [List.map_cons, List.cons.injEq]
      constructor
      · rintro ⟨h1, h2⟩
        refine ⟨?_, (ih).mp h2⟩
        cases e with
        | strC s' =>
          simp only [ConstantM.asStr, Option.some.injEq] at h1
          simp [h1]
        | vecC l => simp [ConstantM.asStr] at h1
        | otherC => simp [ConstantM.asStr] at h1
      · rintro ⟨h1, h2⟩
        exact ⟨by simp [h1, ConstantM.asStr], (ih).mpr h2⟩

theorem ipDeclTyOk_iff {declTy : MTy} :
    ipDeclTyOk declTy = true ↔ ∃ mutb, declTy = .array (.ref mutb .strTy) := by
  cases declTy with
  | array t =>
    cases t with
    | ref mutb inner =>
      simp only [ipDeclTyOk]
      constructor
      · intro h
        exact ⟨mutb, by rw [of_decide_eq_true h]⟩
      · rintro ⟨mutb', heq⟩
        cases heq
        exact decide_eq_true rfl
    | array _ => simp [ipDeclTyOk]
    | slice _ => simp [ipDeclTyOk]
    | strTy => simp [ipDeclTyOk]
    | otherTy => simp [ipDeclTyOk]
  | ref m t => simp [ipDeclTyOk]
  | slice t => simp [ipDeclTyOk]
  | strTy => simp [ipDeclTyOk]
  | otherTy => simp [ipDeclTyOk]

theorem ipPathOf_eq_some_iff {bodyVal : Option ConstantM} {path : List String} :
    ipPathOf bodyVal = some path ↔ bodyVal = some (.vecC (path.map ConstantM.strC)) := by
  cases bodyVal with
  | none => simp [ipPathOf]
  | some c =>
    cases c with
    | strC s => simp [ipPathOf]
    | otherC => simp [ipPathOf]
    | vecC elems =>
      simp only [ipPathOf, Option.some.injEq, ConstantM.vecC.injEq]
      exact listSequence_asStr

theorem pathToMatchedType_some_shapes (ctx : UddCtx) (fuel : Nat) (e : PExpr)
    (segs : List String) (h : pathToMatchedType ctx fuel e = some segs) :
    (∃ elems, peelHirExprRefs e = .arrayLit elems
      ∧ listSequence (elems.map litStrOf) = some segs)
    ∨ (∃ hirId initE f, peelHirExprRefs e = .qpath (.localRes hirId)
      ∧ ctx.localInit hirId = some initE ∧ fuel = f + 1
      ∧ pathToMatchedType ctx f initE = some segs)
    ∨ (∃ did alloc, peelHirExprRefs e = .qpath (.staticRes did)
      ∧ ctx.evalStaticInit did = some alloc
      ∧ readMirAllocDefPath alloc (ctx.typeOfDef did) = some segs)
    ∨ (∃ did alloc, peelHirExprRefs e = .qpath (.constRes did)
      ∧ ctx.constEvalPoly did = some (.byRef alloc 0)
      ∧ readMirAllocDefPath alloc (ctx.typeOfDef did) = some segs) := by
  rw [pathToMatchedType] at h
  cases hp : peelHirExprRefs e with
  | qpath r =>
    rw [hp] at h
    cases r with
    | localRes hirId =>
      dsimp only at h
      cases hl : ctx.localInit hirId with
      | none => rw [hl] at h; exact absurd h (by simp)
      | some initE =>
        rw [hl] at h
        dsimp only at h
        cases fuel with
        | zero => exact absurd h (by simp)
        | succ f =>
          exact Or.inr (Or.inl ⟨hirId, initE, f, rfl, hl, rfl, h⟩)
    | staticRes did =>
      dsimp only at h
      cases hs : ctx.evalStaticInit did with
      | none => rw [hs] at h; exact absurd h (by simp)
      | some alloc =>
        rw [hs] at h
        dsimp only at h
        exact Or.inr (Or.inr (Or.inl ⟨did, alloc, rfl, hs, h⟩))
    | constRes did =>
      dsimp only at h
      cases hc : ctx.constEvalPoly did with
      | none => rw [hc] at h; exact absurd h (by simp)
      | some cv =>
        rw [hc] at h
        cases cv with
        | scalar u => exact absurd h (by simp)
        | otherCV => exact absurd h (by simp)
        | byRef alloc off =>
          dsimp only at h
          by_cases ho : off = 0
          · subst ho
            rw [if_pos rfl] at h
            exact Or.inr (Or.inr (Or.inr ⟨did, alloc, rfl, hc, h⟩))
          · rw [if_neg ho] at h
            exact absurd h (by simp)
    | otherRes => exact absurd h (by simp)
  | arrayLit elems =>
    rw [hp] at h
    exact Or.inl ⟨elems, rfl, h⟩
  | litE s => rw [hp] at h; exact absurd h (by simp)
  | addrOf e1 => rw [hp] at h; exact absurd h (by simp)
  | otherPE => rw [hp] at h; exact absurd h (by simp)

theorem uddCheckExpr_none_of_extraction_none (ctx : UddCtx) (fuel : Nat)
    (allowed : Bool) (call : UddCall) (p : List String) (w : Nat) (a : PExpr)
    (hp : call.calleeRes = some p) (hw : matchAnyDefPaths p = some w)
    (ha : call.pathArgs[uddItemArgIdx w]? = some a)
    (hfail : pathToMatchedType ctx fuel a = none) :
    uddCheckExpr ctx fuel allowed call = none := by
  unfold uddCheckExpr
  by_cases hal : allowed = true
  · rw [if_pos hal]
  · rw [if_neg hal, hp]
    dsimp only
    rw [hw]
    dsimp only
    rw [ha]
    dsimp only
    rw [hfail]

/-! ## Claim theorems -/

/-- C10: within the module named `paths` nested in the module named
`utils`, `ClippyLintsInternal::check_crate` reports exactly one
"should be before the previous constant" finding, at that item's span, for
each item whose name is lexically smaller than the immediately preceding
item's name, and no finding when the names are in non-decreasing lexical
order. -/
theorem clippy_lints_internal_lexical_ordering
    (krate : List AItem) (u p : AItem) (uitems pitems : List AItem)
    (hu : krate.find? (fun i => i.name == "utils") = some u)
    (hus : u.sub = some uitems)
    (hp : uitems.find? (fun i => i.name == "paths") = some p)
    (hps : p.sub = some pitems) :
    clippyLintsInternalCheckCrate krate =
      (pitems.zip (pitems.drop 1)).filterMap
        (fun q => if strLt q.2.name q.1.name then some q.2.span else none)
    ∧ ((∀ q ∈ pitems.zip (pitems.drop 1), strLt q.2.name q.1.name = false) →
        clippyLintsInternalCheckCrate krate = []) := by
  have hmain : clippyLintsInternalCheckCrate krate
      = (pitems.zip (pitems.drop 1)).filterMap
          (fun q => if strLt q.2.name q.1.name then some q.2.span else none) := by
    unfold clippyLintsInternalCheckCrate
    simp only [hu, hus, hp, hps]
    exact orderFindingsAux_none pitems
  refine ⟨hmain, fun hnd => hmain.trans ?_⟩
  refine List.filterMap_eq_nil_iff.mpr fun q hq => ?_
  simp [hnd q hq]

theorem clippy_lints_internal_lexical_ordering_witness :
    clippyLintsInternalCheckCrate
        [.mk "utils" 0 (some [.mk "paths" 1 (some [.mk "b" 2 none, .mk "a" 3 none])])]
      = [3] := by
  have h := clippy_lints_internal_lexical_ordering
    [.mk "utils" 0 (some [.mk "paths" 1 (some [.mk "b" 2 none, .mk "a" 3 none])])]
    (.mk "utils" 0 (some [.mk "paths" 1 (some [.mk "b" 2 none, .mk "a" 3 none])]))
    (.mk "paths" 1 (some [.mk "b" 2 none, .mk "a" 3 none]))
    [.mk "paths" 1 (some [.mk "b" 2 none, .mk "a" 3 none])]
    [.mk "b" 2 none, .mk "a" 3 none]
    rfl rfl rfl rfl
  exact h.1.trans (by decide)

/-- C1: after the traversal, the reconciliation pass reports exactly the
declared lints whose names are not in the union of the names collected
from the `get_lints` bodies, each at the macro-expansion-resolved
call-site span of its declaration span. -/
theorem lint_without_lint_pass_reconciliation (items : List LItem)
    (callSite : Nat → Nat) :
    lwlpCheckCratePost false callSite (lwlpCheckCrate items) =
      (lwlpCheckCrate items).declaredLints.filterMap
        (fun q => if (registeredUnion items).contains q.1 then none
                  else some (callSite q.2, lwlpMsg q.1)) := by
  simp [lwlpCheckCratePost, lwlpCheckCrate_registered]

/-- C8: a tracked lint declaration with no extractable `clippy::version`
value gets a "missing" finding; an extractable value that is neither the
legacy string `pre 1.29.0` nor a parseable semantic version gets an
"invalid" finding; the legacy string or a parseable version gets none. -/
theorem clippy_version_attribute_validation (parseOk : String → Bool)
    (attrs : List AttrM) (span : Nat) :
    (checkInvalidClippyVersionAttribute parseOk attrs span = some (span, .missingAttr)
      ↔ extractClippyVersionValue attrs = none)
    ∧ (checkInvalidClippyVersionAttribute parseOk attrs span = some (span, .invalidAttr)
      ↔ ∃ v, extractClippyVersionValue attrs = some v ∧ v ≠ "pre 1.29.0"
          ∧ parseOk v = false)
    ∧ (checkInvalidClippyVersionAttribute parseOk attrs span = none
      ↔ ∃ v, extractClippyVersionValue attrs = some v
          ∧ (v = "pre 1.29.0" ∨ parseOk v = true)) := by
  cases h : extractClippyVersionValue attrs with
  | none => simp [checkInvalidClippyVersionAttribute, h]
  | some v =>
    by_cases hv : v = "pre 1.29.0"
    · simp [checkInvalidClippyVersionAttribute, h, hv]
    · by_cases hpk : parseOk v
      · simp [checkInvalidClippyVersionAttribute, h, hv, hpk]
      · simp [checkInvalidClippyVersionAttribute, h, hv, hpk]

/-- C9: `InterningDefinedSymbol::check_crate` leaves a non-empty symbol
index untouched (built at most once per run), and every entry admitted
into a freshly built index comes from a `Const` child of one of the two
well-known symbol modules, has exactly the interned-symbol type, evaluates
to a scalar, and is keyed by that scalar value. -/
theorem symbol_constant_index_once_and_admission :
    (∀ (ctx : SymCtx) (m : List (Nat × Nat)), m ≠ [] → idsCheckCrate ctx m = m)
    ∧ (∀ (ctx : SymCtx) (v d : Nat), (v, d) ∈ idsCheckCrate ctx [] →
        (∃ mdid, (ctx.kwModule = some mdid ∨ ctx.symModule = some mdid)
          ∧ ChildM.constDef d ∈ ctx.moduleChildren mdid)
        ∧ ctx.isSymbolTy d = true
        ∧ ctx.constEvalPoly d = some (.scalar (some v))) := by
  constructor
  · intro ctx m hm
    unfold idsCheckCrate
    have hne : (!m.isEmpty) = true := by
      cases m with
      | nil => exact absurd rfl hm
      | cons a t => rfl
    rw [if_pos hne]
  · intro ctx v d h
    unfold idsCheckCrate at h
    rw [if_neg (by simp)] at h
    simp only [List.foldl_cons, List.foldl_nil] at h
    cases hk : ctx.kwModule with
    | none =>
      rw [hk] at h
      cases hs : ctx.symModule with
      | none => rw [hs] at h; simp at h
      | some did2 =>
        rw [hs] at h
        rcases idsAdmitChild_fold_mem ctx _ _ _ _ h with h' | h'
        · simp at h'
        · exact ⟨⟨did2, Or.inr rfl, h'.1⟩, h'.2⟩
    | some did1 =>
      rw [hk] at h
      cases hs : ctx.symModule with
      | none =>
        rw [hs] at h
        rcases idsAdmitChild_fold_mem ctx _ _ _ _ h with h' | h'
        · simp at h'
        · exact ⟨⟨did1, Or.inl rfl, h'.1⟩, h'.2⟩
      | some did2 =>
        rw [hs] at h
        rcases idsAdmitChild_fold_mem ctx _ _ _ _ h with h' | h'
        · rcases idsAdmitChild_fold_mem ctx _ _ _ _ h' with h'' | h''
          · simp at h''
          · exact ⟨⟨did1, Or.inl rfl, h''.1⟩, h''.2⟩
        · exact ⟨⟨did2, Or.inr rfl, h'.1⟩, h'.2⟩

theorem symbol_constant_index_once_and_admission_witness :
    idsCheckCrate symDemoCtx [(0, 0)] = [(0, 0)]
    ∧ ((∃ mdid, (symDemoCtx.kwModule = some mdid ∨ symDemoCtx.symModule = some mdid)
          ∧ ChildM.constDef 7 ∈ symDemoCtx.moduleChildren mdid)
        ∧ symDemoCtx.isSymbolTy 7 = true
        ∧ symDemoCtx.constEvalPoly 7 = some (.scalar (some 42))) :=
  ⟨symbol_constant_index_once_and_admission.1 symDemoCtx [(0, 0)] (by simp),
   symbol_constant_index_once_and_admission.2 symDemoCtx 42 7 (by decide)⟩

/-- C7: for a `const` item in a module named `paths`, an "invalid path"
finding is reported, at the item's span, exactly when the declared type is
an array of string slices, the body evaluates to a list of strings, and
`check_path` fails; and `check_path` fails exactly when primary resolution
is `Res::Err` and every fallback candidate — the lang items together with
the four fixed incoherent-impl tables (f32, f64, slice, str) — misses. -/
theorem invalid_paths_validation (ctx : CPCtx) :
    (∀ (pm : String) (declTy : MTy) (bodyVal : Option ConstantM) (span sp : Nat)
        (msg : String),
      invalidPathsCheckItem ctx (.constItem pm declTy bodyVal span) = some (sp, msg)
      ↔ (sp = span ∧ msg = "invalid path" ∧ pm = "paths"
         ∧ (∃ mutb, declTy = .array (.ref mutb .strTy))
         ∧ (∃ path, bodyVal = some (.vecC (path.map ConstantM.strC))
             ∧ checkPath ctx path = false)))
    ∧ (∀ path : List String, checkPath ctx path = false
        ↔ (ctx.defPathRes path = .resErr
           ∧ ∀ id ∈ cpFallbackIds ctx, cpCandidateHit ctx path id = false)) := by
  constructor
  · intro pm declTy bodyVal span sp msg
    simp only [invalidPathsCheckItem]
    by_cases hpm : pm = "paths" ∧ ipDeclTyOk declTy = true
    · rw [if_pos hpm]
      cases hb : ipPathOf bodyVal with
      | none =>
        simp only [reduceCtorEq, false_iff, not_and]
        intro _ _ _ _ hpath
        obtain ⟨path, hp, -⟩ := hpath
        rw [← ipPathOf_eq_some_iff, hb] at hp
        cases hp
      | some path =>
        by_cases hc : checkPath ctx path = true
        · simp only [hc, Bool.not_true, Bool.false_eq_true, if_false, reduceCtorEq,
            false_iff, not_and]
          intro _ _ _ _ hpath
          obtain ⟨path', hp, hcf⟩ := hpath
          rw [← ipPathOf_eq_some_iff, hb] at hp
          have hpp := Option.some.inj hp
          rw [← hpp, hc] at hcf
          cases hcf
        · simp only [Bool.not_eq_true] at hc
          simp only [hc, Bool.not_false, if_true, Option.some.injEq, Prod.mk.injEq]
          constructor
          · rintro ⟨h1, h2⟩
            exact ⟨h1.symm, h2.symm, hpm.1, ipDeclTyOk_iff.mp hpm.2,
              ⟨path, ipPathOf_eq_some_iff.mp hb, hc⟩⟩
          · rintro ⟨h1, h2, -, -, -⟩
            exact ⟨h1.symm, h2.symm⟩
    · rw [if_neg hpm]
      simp only [reduceCtorEq, false_iff, not_and]
      intro _ _ hpm' hty
      intro _
      exact hpm ⟨hpm', ipDeclTyOk_iff.mpr hty⟩
  · intro path
    unfold checkPath
    by_cases hr : ctx.defPathRes path = .resErr
    · rw [if_neg (by simpa using hr)]
      simp only [hr, true_and, List.any_eq_true, Bool.not_eq_true]
      constructor
      · intro h id hid
        by_contra hcon
        simp only [Bool.not_eq_false] at hcon
        exact absurd h (by simp [List.any_eq_true]; exact ⟨id, hid, hcon⟩)
      · intro h
        rw [List.any_eq_false]
        intro id hid
        simp [h id hid]
    · rw [if_pos (by simpa using hr)]
      simp [hr]

theorem invalid_paths_validation_witness :
    invalidPathsCheckItem cpDemoCtx
        (.constItem "paths" (.array (.ref false .strTy)) (some (.vecC [.strC "a"])) 5)
      = some (5, "invalid path") :=
  ((invalid_paths_validation cpDemoCtx).1 "paths" (.array (.ref false .strTy))
      (some (.vecC [.strC "a"])) 5 5 "invalid path").mpr
    ⟨rfl, rfl, rfl, ⟨false, rfl⟩, ⟨["a"], rfl, by decide⟩⟩

/-- C2 (counterexample to the claim as stated): no shape among the four
recognized callees takes its would-be-path argument from a position
different from the other three — the selector is `0` for every
`which_path` the table can produce; the alternate position (index 4) is
unreachable. -/
theorem unnecessary_def_path_no_distinguished_position :
    ¬ ∃ w, w < uddPaths.length
      ∧ ∀ w', w' < uddPaths.length → w' ≠ w → uddItemArgIdx w ≠ uddItemArgIdx w' := by
  decide

/-- C2 (amended): the engine fires only on call expressions whose callee
resolves to one of exactly the four functions of the `PATHS` table, and
the would-be-path argument is taken from the same position (`args[0]`
after the context and handle arguments) for all four shapes. -/
theorem unnecessary_def_path_recognized_callees :
    (∀ (ctx : UddCtx) (fuel : Nat) (allowed : Bool) (call : UddCall) (f : UddFinding),
      uddCheckExpr ctx fuel allowed call = some f →
        ∃ p w, call.calleeRes = some p ∧ matchAnyDefPaths p = some w
          ∧ w < uddPaths.length ∧ p ∈ uddPaths)
    ∧ (∀ w, w < uddPaths.length → uddItemArgIdx w = 0) := by
  constructor
  · intro ctx fuel allowed call f h
    unfold uddCheckExpr at h
    by_cases ha : allowed = true
    · rw [if_pos ha] at h; cases h
    · rw [if_neg ha] at h
      cases hc : call.calleeRes with
      | none => rw [hc] at h; cases h
      | some p =>
        rw [hc] at h
        dsimp only at h
        cases hm : matchAnyDefPaths p with
        | none => rw [hm] at h; cases h
        | some w =>
          obtain ⟨h1, h2⟩ := listPosition_mem (l := uddPaths) hm
          exact ⟨p, w, rfl, hm, h1, h2⟩
  · intro w hw
    unfold uddItemArgIdx
    have hne : w ≠ 4 := by
      simp only [uddPaths, List.length_cons, List.length_nil] at hw
      omega
    rw [if_neg hne]

theorem unnecessary_def_path_recognized_callees_witness :
    ∃ p w, uddDemoCall.calleeRes = some p ∧ matchAnyDefPaths p = some w
      ∧ w < uddPaths.length ∧ p ∈ uddPaths :=
  unnecessary_def_path_recognized_callees.1 uddDemoCtx 1 false uddDemoCall
    ⟨0, "use of a def path to a diagnostic item",
      "is_type_diagnostic_item(cx, ty, sym::Vec)", false⟩ (by decide)

/-- C3: when the resolved entity has a public-field constructor, the two
`is_expr_path_def_path` cases switch to the constructor-resolving
accessors (`is_res_diag_ctor` / `is_res_lang_ctor`, resolving through
`path_res`), the two `match_def_path` cases attach the parent-`DefId` help
note — and only those two cases ever set the note — and for every shape
other than `is_expr_path_def_path` the rewrite string does not depend on
the constructor flag. -/
theorem unnecessary_def_path_ctor_tie_break :
    (∀ c d i : String,
      uddSuggestion 3 (.diagnosticItem i) true c d
        = some ("is_res_diag_ctor(" ++ c ++ ", path_res(" ++ c ++ ", " ++ d
            ++ "), sym::" ++ i ++ ")", false)
      ∧ uddSuggestion 3 (.langItem i) true c d
        = some ("is_res_lang_ctor(" ++ c ++ ", path_res(" ++ c ++ ", " ++ d
            ++ "), LangItem::" ++ i ++ ")", false)
      ∧ uddSuggestion 3 (.diagnosticItem i) false c d
        = some ("is_path_diagnostic_item(" ++ c ++ ", " ++ d ++ ", sym::" ++ i ++ ")",
            false)
      ∧ uddSuggestion 0 (.diagnosticItem i) true c d
        = some (c ++ ".tcx.is_diagnostic_item(sym::" ++ i ++ ", " ++ d ++ ")", true)
      ∧ uddSuggestion 0 (.langItem i) true c d
        = some (c ++ ".tcx.lang_items().require(LangItem::" ++ i ++ ").ok() == Some("
            ++ d ++ ")", true))
    ∧ (∀ (w : Nat) (it : UddItem) (hc : Bool) (c d s : String) (n : Bool),
        uddSuggestion w it hc c d = some (s, n) → n = true → w = 0 ∧ hc = true)
    ∧ (∀ (w : Nat) (it : UddItem) (c d : String), w ≠ 3 →
        (uddSuggestion w it true c d).map Prod.fst
          = (uddSuggestion w it false c d).map Prod.fst) := by
  refine ⟨fun c d i => ⟨rfl, rfl, rfl, rfl, rfl⟩, ?_, ?_⟩
  · intro w it hc c d s n h hn
    subst hn
    rcases w with _ | _ | _ | _ | w
    · cases it <;> cases hc <;> simp_all [uddSuggestion]
    · cases it <;> cases hc <;> simp_all [uddSuggestion]
    · cases it <;> cases hc <;> simp_all [uddSuggestion]
    · cases it <;> cases hc <;> simp_all [uddSuggestion]
    · cases it <;> cases hc <;> simp_all [uddSuggestion]
  · intro w it c d hw
    rcases w with _ | _ | _ | _ | w
    · cases it <;> rfl
    · cases it <;> rfl
    · cases it <;> rfl
    · exact absurd rfl hw
    · cases it <;> rfl

theorem unnecessary_def_path_ctor_tie_break_witness :
    uddSuggestion 0 (.diagnosticItem "Vec") true "cx" "e"
      = some ("cx.tcx.is_diagnostic_item(sym::Vec, e)", true)
    ∧ ((0 : Nat) = 0 ∧ (true : Bool) = true) :=
  ⟨by decide,
   unnecessary_def_path_ctor_tie_break.2.1 0 (.diagnosticItem "Vec") true "cx" "e"
     "cx.tcx.is_diagnostic_item(sym::Vec, e)" true (by decide) rfl⟩

/-- C4 (counterexample to the claim as stated): extraction succeeds on a
local bound to a local bound to a literal string array — a two-level
chain, which is none of the claim's enumerated shapes (literal array,
local bound to one through one level of indirection, static/constant). -/
theorem path_extraction_two_level_local_counterexample :
    pathToMatchedType uddLocalChainCtx 2 (.qpath (.localRes 0)) = some ["a"]
    ∧ claimedExtractionShapes uddLocalChainCtx (.qpath (.localRes 0)) = false := by
  decide

/-- C4 (amended): extraction is a partial function that succeeds only on a
literal string-array expression, a local whose initializer itself extracts
(recursively, through any number of indirection levels), or a
static/constant whose evaluated allocation decodes to a string array —
and whenever extraction fails on the designated arguments, the engine
emits no finding for that call. -/
theorem path_extraction_fails_closed :
    (∀ (ctx : UddCtx) (fuel : Nat) (e : PExpr) (segs : List String),
      pathToMatchedType ctx fuel e = some segs →
        (∃ elems, peelHirExprRefs e = .arrayLit elems
          ∧ listSequence (elems.map litStrOf) = some segs)
        ∨ (∃ hirId initE f, peelHirExprRefs e = .qpath (.localRes hirId)
          ∧ ctx.localInit hirId = some initE ∧ fuel = f + 1
          ∧ pathToMatchedType ctx f initE = some segs)
        ∨ (∃ did alloc, peelHirExprRefs e = .qpath (.staticRes did)
          ∧ ctx.evalStaticInit did = some alloc
          ∧ readMirAllocDefPath alloc (ctx.typeOfDef did) = some segs)
        ∨ (∃ did alloc, peelHirExprRefs e = .qpath (.constRes did)
          ∧ ctx.constEvalPoly did = some (.byRef alloc 0)
          ∧ readMirAllocDefPath alloc (ctx.typeOfDef did) = some segs))
    ∧ (∀ (ctx : UddCtx) (fuel : Nat) (allowed : Bool) (call : UddCall) (p : List String)
        (w : Nat) (a : PExpr),
        call.calleeRes = some p → matchAnyDefPaths p = some w →
        call.pathArgs[uddItemArgIdx w]? = some a →
        pathToMatchedType ctx fuel a = none →
        uddCheckExpr ctx fuel allowed call = none) :=
  ⟨pathToMatchedType_some_shapes, uddCheckExpr_none_of_extraction_none⟩

theorem path_extraction_fails_closed_witness :
    ((∃ elems, peelHirExprRefs (PExpr.arrayLit [.litE (some "x")]) = .arrayLit elems
        ∧ listSequence (elems.map litStrOf) = some ["x"])
      ∨ (∃ hirId initE f,
          peelHirExprRefs (PExpr.arrayLit [.litE (some "x")]) = .qpath (.localRes hirId)
          ∧ uddLocalChainCtx.localInit hirId = some initE ∧ 1 = f + 1
          ∧ pathToMatchedType uddLocalChainCtx f initE = some ["x"])
      ∨ (∃ did alloc,
          peelHirExprRefs (PExpr.arrayLit [.litE (some "x")]) = .qpath (.staticRes did)
          ∧ uddLocalChainCtx.evalStaticInit did = some alloc
          ∧ readMirAllocDefPath alloc (uddLocalChainCtx.typeOfDef did) = some ["x"])
      ∨ (∃ did alloc,
          peelHirExprRefs (PExpr.arrayLit [.litE (some "x")]) = .qpath (.constRes did)
          ∧ uddLocalChainCtx.constEvalPoly did = some (.byRef alloc 0)
          ∧ readMirAllocDefPath alloc (uddLocalChainCtx.typeOfDef did) = some ["x"]))
    ∧ uddCheckExpr uddLocalChainCtx 0 false
        { calleeRes := some ["clippy_utils", "match_def_path"], cxSnip := "cx",
          defSnip := "d", pathArgs := [.otherPE], span := 0 } = none := by
  constructor
  · exact path_extraction_fails_closed.1 uddLocalChainCtx 1
      (.arrayLit [.litE (some "x")]) ["x"] (by decide)
  · exact path_extraction_fails_closed.2 uddLocalChainCtx 0 false _
      ["clippy_utils", "match_def_path"] 0 .otherPE rfl (by decide) rfl (by decide)

/-- C5: for a `span_lint_and_then` call whose closure body is a single
method call on a path receiver, the three span-qualified variants
(`span_suggestion`, `span_help`, `span_note`) produce a collapse finding
exactly when the method call's span argument is structurally equal — under
the side-effect-refusing equality — to the `span_lint_and_then` call's own
span argument, and the span-less `help`/`note` variants produce one
unconditionally. -/
theorem collapsible_calls_span_equality_gate
    (args : List CExpr) (body : CExpr) (name : String) (recv : CExpr)
    (callArgs : List CExpr)
    (hlen : args.length = 5)
    (hclosure : args[4]? = some (CExpr.closure body))
    (hpeel : peelBlocksWithStmt body = .methodCall name recv callArgs)
    (hrecv : isPathExprC recv = true) :
    collapsibleCheckExpr false
        (.call (some ["clippy_utils", "diagnostics", "span_lint_and_then"]) args)
      = (if name = "span_suggestion" then
           if spanlessEqDenySideEffects (args.getD 2 .otherC) (callArgs.getD 0 .otherC)
           then some .toSugg else none
         else if name = "span_help" then
           if spanlessEqDenySideEffects (args.getD 2 .otherC) (callArgs.getD 0 .otherC)
           then some (.toHelp true) else none
         else if name = "span_note" then
           if spanlessEqDenySideEffects (args.getD 2 .otherC) (callArgs.getD 0 .otherC)
           then some (.toNote true) else none
         else if name = "help" then some (.toHelp false)
         else if name = "note" then some (.toNote false)
         else none) := by
  unfold collapsibleCheckExpr
  rw [if_neg (by simp : ¬(false : Bool) = true)]
  dsimp only
  rw [if_pos ⟨rfl, hlen⟩, hclosure]
  dsimp only
  rw [hpeel]
  dsimp only
  rw [if_pos hrecv]

theorem collapsible_calls_span_equality_gate_witness :
    collapsibleCheckExpr false
        (.call (some ["clippy_utils", "diagnostics", "span_lint_and_then"])
          [.cpath ["cx"], .cpath ["L"], .cpath ["s"], .clit "m",
           .closure (.cblock none (some (.methodCall "span_help" (.cpath ["diag"])
             [.cpath ["s"], .clit "h"])))])
      = some (.toHelp true) := by
  have h := collapsible_calls_span_equality_gate
    [.cpath ["cx"], .cpath ["L"], .cpath ["s"], .clit "m",
     .closure (.cblock none (some (.methodCall "span_help" (.cpath ["diag"])
       [.cpath ["s"], .clit "h"])))]
    (.cblock none (some (.methodCall "span_help" (.cpath ["diag"])
      [.cpath ["s"], .clit "h"])))
    "span_help" (.cpath ["diag"]) [.cpath ["s"], .clit "h"]
    rfl rfl rfl rfl
  exact h.trans (by decide)

/-- C6: for a binary `==`/`!=`: both operands classifying as
symbol-as-string expressions yields exactly one conversion finding whose
rewrite compares the underlying handles (with `.name` appended for an
identifier handle); exactly one operand classifying yields exactly one
allocation finding with an `.as_str()` rewrite when — and only when — that
operand is an owned-string allocation; no operand classifying yields
nothing. -/
theorem unnecessary_symbol_str_classification
    (symbolMap : List (Nat × Nat)) (intern : String → Nat) (defPathStr : Nat → String)
    (op : BinOpM) (left right : SExprK) (ls rs es : Nat)
    (hop : op = .eqOp ∨ op = .neOp) :
    (∀ cl cr, symbolStrExpr symbolMap intern left = some cl →
        symbolStrExpr symbolMap intern right = some cr →
        interningBinaryCheck symbolMap intern defPathStr op left right ls rs es
          = [⟨es, "unnecessary `Symbol` to string conversion",
              asSymbolSnippet defPathStr cl ++ " " ++ op.asStr ++ " "
                ++ asSymbolSnippet defPathStr cr⟩])
    ∧ (∀ cl, symbolStrExpr symbolMap intern left = some cl →
        symbolStrExpr symbolMap intern right = none →
        interningBinaryCheck symbolMap intern defPathStr op left right ls rs es
          = (if cl.isOwnedAlloc then
              [⟨ls, "unnecessary string allocation",
                asSymbolSnippet defPathStr cl ++ ".as_str()"⟩]
             else []))
    ∧ (∀ cr, symbolStrExpr symbolMap intern left = none →
        symbolStrExpr symbolMap intern right = some cr →
        interningBinaryCheck symbolMap intern defPathStr op left right ls rs es
          = (if cr.isOwnedAlloc then
              [⟨rs, "unnecessary string allocation",
                asSymbolSnippet defPathStr cr ++ ".as_str()"⟩]
             else []))
    ∧ (symbolStrExpr symbolMap intern left = none →
        symbolStrExpr symbolMap intern right = none →
        interningBinaryCheck symbolMap intern defPathStr op left right ls rs es = [])
    ∧ (∀ (s : String) (o : Bool),
        asSymbolSnippet defPathStr (.exprSym s true o) = s ++ ".name"
        ∧ asSymbolSnippet defPathStr (.exprSym s false o) = s) := by
  refine ⟨?_, ?_, ?_, ?_, fun s o => ⟨rfl, rfl⟩⟩
  · intro cl cr hl hr
    unfold interningBinaryCheck
    rw [if_pos hop]
    simp only [hl, hr]
  · intro cl hl hr
    unfold interningBinaryCheck
    rw [if_pos hop]
    simp only [hl, hr]
  · intro cr hl hr
    unfold interningBinaryCheck
    rw [if_pos hop]
    simp only [hl, hr]
  · intro hl hr
    unfold interningBinaryCheck
    rw [if_pos hop]
    simp only [hl, hr]

theorem unnecessary_symbol_str_classification_witness :
    interningBinaryCheck [] (fun s => s.length) (fun _ => "") .eqOp
        (.direct (.mcall (some symbolAsStrPath) true .symbolTy "a") none)
        (.direct (.mcall (some symbolAsStrPath) true .symbolTy "b") none) 0 1 2
      = [⟨2, "unnecessary `Symbol` to string conversion", "a == b"⟩] := by
  have h := (unnecessary_symbol_str_classification [] (fun s => s.length) (fun _ => "")
    .eqOp (.direct (.mcall (some symbolAsStrPath) true .symbolTy "a") none)
    (.direct (.mcall (some symbolAsStrPath) true .symbolTy "b") none) 0 1 2
    (Or.inl rfl)).1 (.exprSym "a" false false) (.exprSym "b" false false)
    (by decide) (by decide)
  exact h.trans (by decide)

end InternalLints
